import Mathlib

/-!
Verification of the Buquebus fare-aggregation service (`buquebus_client.py`,
`buquebus_clientV2.py`, `buquebus_clientUYU.py`, `api.py`).

The Python sources are shallowly embedded: Python values that flow through the
JSON-handling code are modelled by `PyVal` (None / str / int), Python `dict`s
keyed by strings are modelled by insertion-ordered association lists with
overwrite-in-place semantics (`dinsert` / `dget`), Python floats arising from
integer-cents division are modelled exactly by `ℚ`, and the fallible stdlib
conversions `int(...)` / `float(...)` are modelled by `Option`-returning
parsers covering Python's core syntax (optional sign, decimal digits, one
optional decimal point; Python additionally accepts exponents, `inf`/`nan`
and digit-group underscores, none of which the repository ever feeds in).
-/

/-- A Python value as it appears after `json.loads` / `.get` chains in the
fare code: `None`, a string, or an integer. -/

inductive PyVal where
  | vNone : PyVal
  | vStr : String → PyVal
  | vInt : Int → PyVal
deriving DecidableEq, Repr

/-- Python truthiness for the values above (`if x:`): `None`, `""` and `0`
are falsy. -/

def pyTruthy : PyVal → Bool
  | .vNone => false
  | .vStr s => s ≠ ""
  | .vInt n => n ≠ 0

/-- Python `str(...)` on the values above. -/

def pyToStr : PyVal → String
  | .vNone => "None"
  | .vStr s => s
  | .vInt n => toString n

/-- Split off one optional leading sign, Python-style: returns
(isNegative, rest). -/

def pySignSplit : List Char → Bool × List Char
  | '-' :: rest => (true, rest)
  | '+' :: rest => (false, rest)
  | l => (false, l)

/-- ASCII whitespace stripped by Python `str.strip()` (Python also strips
rarer unicode whitespace, which none of the inputs here contain). -/

def pyIsSpace (c : Char) : Bool :=
  c = ' ' ∨ c = '\t' ∨ c = '\n' ∨ c = '\r' ∨ c = '\x0b' ∨ c = '\x0c'

/-- Python `str.strip()` on a character list. -/

def pyStrip (l : List Char) : List Char :=
  ((l.dropWhile pyIsSpace).reverse.dropWhile pyIsSpace).reverse

/-- Python `str.strip()` on a string. -/

def pyTrim (s : String) : String :=
  String.mk (pyStrip s.data)

/-- ASCII upper-casing of one character (Python's `str.upper()` restricted
to the ASCII data this code compares). -/

def pyUpperChar (c : Char) : Char :=
  if 'a' ≤ c ∧ c ≤ 'z' then Char.ofNat (c.toNat - 32) else c

/-- Python `str.upper()`. -/

def pyUpper (s : String) : String :=
  String.mk (s.data.map pyUpperChar)

/-- Numeric value of a list of decimal digit characters (most significant
first). -/

def digitsVal (l : List Char) : Nat :=
  l.foldl (fun a c => a * 10 + (c.toNat - 48)) 0

/-- Python `int(s)` on a string: strip, optional sign, one or more decimal
digits; anything else raises `ValueError`, modelled as `none`. -/

def pyIntOfStr (s : String) : Option Int :=
  let t := pyStrip s.data
  let p := pySignSplit t
  if p.2 ≠ [] ∧ p.2.all Char.isDigit then
    some (if p.1 then -(digitsVal p.2 : Int) else (digitsVal p.2 : Int))
  else none

/-- Split a character list at every occurrence of `sep`, like Python
`str.split(sep)`: `splitOnC c "a-b" = ["a","b"]`, `splitOnC c "-" = ["",""]`. -/

def splitOnC (sep : Char) : List Char → List (List Char)
  | [] => [[]]
  | c :: rest =>
    if c = sep then [] :: splitOnC sep rest
    else
      match splitOnC sep rest with
      | [] => [[c]]
      | h :: t => (c :: h) :: t

/-- The sign factor of a parsed numeric literal. -/

def pySign (neg : Bool) : Int := if neg then -1 else 1

/-- Exact rational division of `q` by a positive machine integer `m`,
written on the numerator/denominator so that it evaluates by kernel
reduction (`Rat.divInt` normalizes; the library `/` on `ℚ` is
`@[irreducible]`). `ratDivNat_eq` proves it equal to `q / m`. -/

def ratDivNat (q : ℚ) (m : Nat) : ℚ :=
  Rat.divInt q.num (q.den * m)

/-- Exact rational subtraction in evaluable form; `ratSub_eq` proves it
equal to `a - b`. -/

def ratSub (a b : ℚ) : ℚ :=
  Rat.divInt (a.num * b.den - b.num * a.den) (a.den * b.den)

/-- `⌊v * 100 + 1/2⌋` in evaluable form (`roundCents_eq`): the number of
cents after Python's `round(v, 2)` / `f"{v:.2f}"`. Python rounds binary
floats half-even; every amount this code rounds is an exact multiple of
1/100, where all rounding modes agree, so round-half-up on exact rationals
is a faithful model of every reachable call. -/

def roundCents (v : ℚ) : Int :=
  Int.fdiv (200 * v.num + v.den) (2 * v.den)

/-- Python `float(s)` on a string (exact rational model): strip, optional
sign, digits with at most one decimal point and at least one digit. -/

def pyFloatOfStr (s : String) : Option ℚ :=
  let t := pyStrip s.data
  let p := pySignSplit t
  match splitOnC '.' p.2 with
  | [a] =>
    if a ≠ [] ∧ a.all Char.isDigit then
      some (Rat.divInt (pySign p.1 * digitsVal a) 1)
    else none
  | [a, b] =>
    if (a ≠ [] ∨ b ≠ []) ∧ a.all Char.isDigit ∧ b.all Char.isDigit then
      some (Rat.divInt (pySign p.1 * (digitsVal a * 10 ^ b.length + digitsVal b))
        (10 ^ b.length))
    else none
  | _ => none

/-- Python `float(v)` on a `PyVal`; `float(None)` raises `TypeError`
(every call site guards against `None` by truthiness first), modelled as
`none`. -/

def pyFloatOfVal : PyVal → Option ℚ
  | .vNone => none
  | .vStr s => pyFloatOfStr s
  | .vInt n => some (Rat.divInt n 1)

/-- Python `round(q, 2)`. Python's `round` is banker's rounding on binary
floats; every value this code rounds is `int(...) / 100.0`, an exact
multiple of 1/100 on which all rounding modes agree, so round-half-up is an
exact model of every reachable call. -/

def pyRound2 (q : ℚ) : ℚ :=
  Rat.divInt (roundCents q) 100

/-- The "not applicable" sentinel compared against by the extractors. -/

def strNA : String := "N/A"

/-- `_to_money` (`buquebus_client.py` lines 37-45): `None` and the `"N/A"`
sentinel map to `None`; otherwise `round(int(str(v)) / 100.0, 2)`, with any
conversion failure swallowed to `None` by the bare `except`. -/

def toMoney : PyVal → Option ℚ
  | .vNone => none
  | .vStr s =>
    if pyUpper (pyTrim s) = strNA then none
    else (pyIntOfStr s).map fun n => pyRound2 (Rat.divInt n 100)
  | .vInt n => some (pyRound2 (Rat.divInt n 100))

/-- Insert into a Python dict modelled as an insertion-ordered association
list: overwriting an existing key keeps its original position, like CPython
dicts. -/

def dinsert {α : Type} (k : String) (v : α) : List (String × α) → List (String × α)
  | [] => [(k, v)]
  | (k2, v2) :: rest =>
    if k2 = k then (k, v) :: rest else (k2, v2) :: dinsert k v rest

/-- Dict lookup (`d.get(k)`): the unique binding for `k`, if any. -/

def dget {α : Type} (k : String) : List (String × α) → Option α
  | [] => none
  | (k2, v2) :: rest => if k2 = k then some v2 else dget k rest

/-- The keys of a dict, in insertion order. -/

def dkeys {α : Type} (m : List (String × α)) : List String :=
  m.map Prod.fst

/-!
Model of one upstream `/api/priceAvailability` response, restricted to the
fields the repository ever reads. Every `.get` chain in the Python code
defaults missing dictionaries to `{}` and missing leaves to `None`, so a
response is faithfully represented by the leaf values those chains can
produce; the optional `{"data": ...}` wrapper unwrapped by
`raw_json.get("data", raw_json)` selects the same dictionary either way and
is elided. A dict that lacks the `"sailingprice"` key is the response with
`sailings = []` (the code reads it as `.get("sailingprice", [])`).
-/

/-- The tariff-type label requested by `_post_day_pricing`. -/

def strPROGRAMADA : String := "PROGRAMADA"

/-- The second tariff family of `fetch_day_full`. -/

def strFLEXIBLE : String := "FLEXIBLE"

/-- The tariff label of the economy-class query in the pro aggregators. -/

def strECONOMICA : String := "ECONOMICA"

/-- One element of a sailing's `c_TCT_TariffChargesTotals` list. -/

structure TariffTotal where
  /-- `c_QOR_QuotationBasisResponse.m_TARF_TariffCodeTypeDescription.c_U282_TariffType` -/
  tariffType : Option String
  /-- `c_QLP_ChargesTotal.m_CHTO_ChargeTotals.m_U618_TotalAmount` -/
  totalAmount : PyVal
deriving DecidableEq, Repr

/-- One element of the response's `sailingprice` list. -/

structure Sailing where
  /-- `c_RDR_RouteDateTimeResponse.m_ROUT_TravelRoute.c_C276_SailingCode` -/
  sailingCode : Option String
  /-- `c_RDR_RouteDateTimeResponse.m_DPDT_DepartureDateAndTime.m_U248_StandardDepartureTime` -/
  depTime : Option String
  /-- `c_RDR_RouteDateTimeResponse.c_ARDT_ArrivalDateAndTime.c_U239_NominalArrivalTime` -/
  arrTime : Option String
  /-- `c_RDR_RouteDateTimeResponse.c_SHNM_ShipName.m_SHNM_ShipName` -/
  shipName : Option String
  /-- `c_RDR_RouteDateTimeResponse.m_ROUT_TravelRoute.c_C081_IsAvailable` -/
  isAvailable : PyVal
  /-- `c_TCT_TariffChargesTotals` -/
  tariffTotals : List TariffTotal
deriving DecidableEq, Repr

/-- An upstream response body: its `sailingprice` list. -/

structure RawResponse where
  sailings : List Sailing
deriving DecidableEq, Repr

/-- Literal `":"` used when reformatting 4-character time codes. -/

def strColon : String := ":"

/-- Empty string literal. -/

def strEmpty : String := ""

/-- Time reformatting inside `_totales_programada_por_sailing`
(`buquebus_client.py` lines 805-806): `(hs[:2] + ":" + hs[2:]) if len(hs) == 4
else ""`. Only the length is tested, not digitness. -/

def fmtTimeV1 (hs : String) : String :=
  if hs.length = 4 then hs.take 2 ++ strColon ++ hs.drop 2 else strEmpty

/-- Time reformatting inside `_totales_por_tarifa` (`buquebus_clientV2.py`
lines 109-110): `hs[:2] + ":" + hs[2:] if len(hs) == 4 else None`. -/

def fmtTimeV2 (hs : String) : Option String :=
  if hs.length = 4 then some (hs.take 2 ++ strColon ++ hs.drop 2) else none

/-- The local `hhmm` helper of `get_web_prices` (`buquebus_client.py` lines
666-667): `f"{x[:2]}:{x[2:]}" if isinstance(x, str) and len(x) == 4 else x` —
non-matching values pass through unchanged. -/

def hhmm (x : Option String) : Option String :=
  match x with
  | some s => if s.length = 4 then some (s.take 2 ++ strColon ++ s.drop 2) else some s
  | none => none

/-- The `total_prog` loop of `_totales_programada_por_sailing`
(`buquebus_client.py` lines 781-798): scan the tariff totals; on a
`PROGRAMADA` entry whose amount is truthy and not `"N/A"`, try
`float(total_str) / 100` and stop at the first success (`break` sits inside
the `try`); a `ValueError` resets to `None` and the scan continues. -/

def totalProgV1 : List TariffTotal → Option ℚ
  | [] => none
  | t :: rest =>
    if t.tariffType = some strPROGRAMADA then
      if pyTruthy t.totalAmount ∧ pyUpper (pyToStr t.totalAmount) ≠ strNA then
        match pyFloatOfVal t.totalAmount with
        | some q => some (ratDivNat q 100)
        | none => totalProgV1 rest
      else totalProgV1 rest
    else totalProgV1 rest

/-- The `total` loop of `_totales_por_tarifa` (`buquebus_clientV2.py` lines
83-101): the first entry whose tariff type equals `tarifa` decides the
result (the `break` is unconditional); its amount must be truthy, not
`"N/A"`, and parse as a float, else the sailing yields `None`. -/

def totalTarifaV2 (tarifa : String) : List TariffTotal → Option ℚ
  | [] => none
  | t :: rest =>
    if t.tariffType = some tarifa then
      if pyTruthy t.totalAmount ∧ pyUpper (pyToStr t.totalAmount) ≠ strNA then
        (pyFloatOfVal t.totalAmount).map fun q => ratDivNat q 100
      else none
    else totalTarifaV2 tarifa rest

/-- One value of the extractor output dicts: `(total, hora_salida,
hora_llegada, ship)`. The V1 extractor stores Python `str` time fields
(possibly `""`), the V2 extractor stores `str` or `None`; both are embedded
into `Option String`, with the V1 strings always present. -/

structure MapEntry where
  amount : ℚ
  hs : Option String
  ha : Option String
  ship : Option String
deriving DecidableEq, Repr

/-- Loop body shared (up to the total function and the stored tuple) by
both extractors: `if code and total is not None: out[code] = entry`. -/

def extractStep (f : List TariffTotal → Option ℚ) (mkE : Sailing → ℚ → MapEntry)
    (out : List (String × MapEntry)) (s : Sailing) : List (String × MapEntry) :=
  match s.sailingCode, f s.tariffTotals with
  | some c, some q => if c ≠ "" then dinsert c (mkE s q) out else out
  | _, _ => out

/-- The tuple stored by the V1 extractor (`buquebus_client.py` lines
800-808): formatted (possibly empty) time strings and the optional ship
name. -/

def entryV1 (s : Sailing) (q : ℚ) : MapEntry :=
  { amount := q
    hs := some (fmtTimeV1 (s.depTime.getD ""))
    ha := some (fmtTimeV1 (s.arrTime.getD ""))
    ship := s.shipName }

/-- The tuple stored by the V2 extractor (`buquebus_clientV2.py` lines
103-112): `None` (not `""`) time fields when the raw value is not of
length 4. -/

def entryV2 (s : Sailing) (q : ℚ) : MapEntry :=
  { amount := q
    hs := fmtTimeV2 (s.depTime.getD "")
    ha := fmtTimeV2 (s.arrTime.getD "")
    ship := s.shipName }

/-- `BuquebusClient._totales_programada_por_sailing` (`buquebus_client.py`
lines 767-809): map each sailing with a truthy code and a successfully
parsed `PROGRAMADA` total to `(total, formatted dep, formatted arr, ship)`;
all other sailings contribute nothing. -/

def totalesProgramadaPorSailing (raw : RawResponse) : List (String × MapEntry) :=
  raw.sailings.foldl (extractStep totalProgV1 entryV1) []

/-- `BuquebusClientV2._totales_por_tarifa` (`buquebus_clientV2.py` lines
64-114): same shape as the V1 extractor, for an arbitrary tariff label,
storing `None` (not `""`) for unformattable times. -/

def totalesPorTarifa (raw : RawResponse) (tarifa : String) : List (String × MapEntry) :=
  raw.sailings.foldl (extractStep (totalTarifaV2 tarifa) entryV2) []

/-- Group a digit list (most significant first) with `'.'` thousands
separators, working from the least significant end. -/

def groupRev : List Char → List Char
  | [] => []
  | [a] => [a]
  | [a, b] => [a, b]
  | [a, b, c] => [a, b, c]
  | a :: b :: c :: d :: rest => a :: b :: c :: '.' :: groupRev (d :: rest)

/-- Literal `","` (the decimal separator after the locale swap). -/

def strComma : String := ","

/-- Literal `"-"`. -/

def strMinus : String := "-"

/-- Two-digit zero-padded rendering of `n % 100`. -/

def twoDigits (n : Nat) : String :=
  String.mk [Char.ofNat (48 + n / 10 % 10), Char.ofNat (48 + n % 10)]

/-- Render a signed amount of cents the way
`f"{v:,.2f}".replace(",", "X").replace(".", ",").replace("X", ".")` renders
`v = cents / 100`: sign, integer part grouped by `'.'`, then `','` and two
decimals. -/

def centsDisplay (c : Int) : String :=
  let n := c.natAbs
  (if c < 0 then strMinus else strEmpty)
    ++ String.mk (groupRev (Nat.toDigits 10 (n / 100)).reverse).reverse
    ++ strComma ++ twoDigits (n % 100)

/-- The `fmt` closure of the pro aggregators (`buquebus_clientV2.py` lines
148-151, `buquebus_clientUYU.py` lines 284-287): `None` stays `None`, else
the amount is rendered as `cur ++ formatted`. Python rounds the binary float
to 2 decimals half-even; every amount is an exact multiple of 1/100 (an
integer-cents value divided by 100), where all rounding modes agree. -/

def fmtMoney (cur : String) : Option ℚ → Option String
  | none => none
  | some v => some (cur ++ centsDisplay (roundCents v))

/-- Currency prefix of the AR pro aggregator. -/

def curARS : String := "ARS "

/-- Currency prefix of the UYU pro aggregator. -/

def curUYU : String := "UYU "

/-- Python `a or b` on optional strings: the first truthy (non-`None`,
non-empty) operand, else the second operand unchanged. -/

def pyOrS : Option String → Option String → Option String
  | some s, b => if s = "" then b else some s
  | none, b => b

/-- One merged row of the pro aggregators' result list. -/

structure Row where
  hora_salida : Option String
  hora_llegada : Option String
  barco : Option String
  codigo : String
  turista : Option String
  business : Option String
  diferencia : Option String
  economica : Option String
  primera : Option String
deriving DecidableEq, Repr

/-- Boolean string order used to model Python `sorted` on sailing codes. -/

def strLe (a b : String) : Bool := decide (a < b) || a == b

/-- Insert into a `strLe`-sorted list of strings. -/

def insStr (a : String) : List String → List String
  | [] => [a]
  | b :: rest => if strLe a b then a :: b :: rest else b :: insStr a rest

/-- Python `sorted(...)` on strings (ascending code-point order). -/

def pySortedStr (l : List String) : List String :=
  l.foldr insStr []

/-- `sorted(set(mapa_t) | set(mapa_b) | set(mapa_p) | set(mapa_e))`: the
sorted, duplicate-free union of the four key sets. -/

def sortedUnionKeys (mt mb mp me : List (String × MapEntry)) : List String :=
  pySortedStr (dkeys mt ++ dkeys mb ++ dkeys mp ++ dkeys me).dedup

/-- The row built for one sailing `code` inside the pro aggregators' merge
loop (`buquebus_clientV2.py` lines 155-180, identically
`buquebus_clientUYU.py` lines 291-316): per-class tuples default to
`(None, None, None, None)`; the vessel falls back across
tourist `or` business `or` first `or` economy, but the departure/arrival
times only across tourist `or` economy (the business and first tuples bind
their time components to `_`); the differential needs both operands truthy. -/

def mkRow (cur : String) (mt mb mp me : List (String × MapEntry)) (code : String) : Row :=
  let gt := dget code mt
  let gb := dget code mb
  let gp := dget code mp
  let ge := dget code me
  let tur : Option ℚ := gt.map MapEntry.amount
  let bus : Option ℚ := gb.map MapEntry.amount
  let pri : Option ℚ := gp.map MapEntry.amount
  let eco : Option ℚ := ge.map MapEntry.amount
  let hs : Option String := gt.bind MapEntry.hs
  let ha : Option String := gt.bind MapEntry.ha
  let hsE : Option String := ge.bind MapEntry.hs
  let haE : Option String := ge.bind MapEntry.ha
  let barco : Option String :=
    pyOrS (pyOrS (pyOrS (gt.bind MapEntry.ship) (gb.bind MapEntry.ship))
      (gp.bind MapEntry.ship)) (ge.bind MapEntry.ship)
  let diff : Option ℚ :=
    match bus, tur with
    | some b, some t => if b ≠ 0 ∧ t ≠ 0 then some (ratSub b t) else none
    | _, _ => none
  { hora_salida := pyOrS hs hsE
    hora_llegada := pyOrS ha haE
    barco := barco
    codigo := code
    turista := fmtMoney cur tur
    business := fmtMoney cur bus
    diferencia := fmtMoney cur diff
    economica := fmtMoney cur eco
    primera := fmtMoney cur pri }

/-- Sort key of `results.sort(key=lambda x: x["hora_salida"] or "99:99")`. -/

def rowKey (r : Row) : String :=
  match r.hora_salida with
  | some s => if s = "" then "99:99" else s
  | none => "99:99"

/-- Stable insertion into a row list sorted by `rowKey`. -/

def insRow (a : Row) : List Row → List Row
  | [] => [a]
  | b :: rest => if strLe (rowKey a) (rowKey b) then a :: b :: rest else b :: insRow a rest

/-- Python `list.sort` (stable, ascending by `rowKey`), modelled by stable
insertion sort. -/

def pySortRows (l : List Row) : List Row :=
  l.foldr insRow []

/-- The merge-and-sort tail shared verbatim by
`BuquebusClientV2.fetch_day_web_prices_pro` (lines 153-182) and
`BuquebusClientUYU.fetch_day_web_prices_pro` (lines 289-318). -/

def mergeRows (cur : String) (mt mb mp me : List (String × MapEntry)) : List Row :=
  pySortRows ((sortedUnionKeys mt mb mp me).map (mkRow cur mt mb mp me))

/-- `mapa_e = self._totales_por_tarifa(raw_e, "ECONOMICA") if st_e == 200
else \x7b\x7d` — the only status-guarded extraction in both pro
aggregators. -/

def economyMap (re2 : Nat × RawResponse) : List (String × MapEntry) :=
  if re2.1 = 200 then totalesPorTarifa re2.2 strECONOMICA else []

/-- `BuquebusClientV2.fetch_day_web_prices_pro` (`buquebus_clientV2.py`
lines 119-184), as a function of the four `(status, body)` results of the
concurrently dispatched class queries (TSEAT, BSEAT, PRSEAT, ESEAT): any
non-200 status among the first three aborts with that `(status, raw body)`;
the economy result is extracted only when its status is 200. -/

def fetchDayWebPricesProV2 (rt rb rp re2 : Nat × RawResponse) :
    Nat × (RawResponse ⊕ List Row) :=
  if rt.1 ≠ 200 then (rt.1, Sum.inl rt.2)
  else if rb.1 ≠ 200 then (rb.1, Sum.inl rb.2)
  else if rp.1 ≠ 200 then (rp.1, Sum.inl rp.2)
  else
    (200, Sum.inr (mergeRows curARS (totalesProgramadaPorSailing rt.2)
      (totalesProgramadaPorSailing rb.2) (totalesProgramadaPorSailing rp.2)
      (economyMap re2)))

/-- `BuquebusClientUYU.fetch_day_web_prices_pro` (`buquebus_clientUYU.py`
lines 249-320): only a non-200 tourist status aborts; the business and
first bodies are fed to the extractor regardless of their statuses, and
only the economy extraction is status-guarded. -/

def fetchDayWebPricesProUYU (rt rb rp re2 : Nat × RawResponse) :
    Nat × (RawResponse ⊕ List Row) :=
  if rt.1 ≠ 200 then (rt.1, Sum.inl rt.2)
  else
    (200, Sum.inr (mergeRows curUYU (totalesProgramadaPorSailing rt.2)
      (totalesProgramadaPorSailing rb.2) (totalesProgramadaPorSailing rp.2)
      (economyMap re2)))

/-- Projection of an aggregator result onto its row list (empty on the
error branch); used to state membership properties uniformly. -/

def rowsOf (p : Nat × (RawResponse ⊕ List Row)) : List Row :=
  match p.2 with
  | Sum.inl _ => []
  | Sum.inr l => l

/-- The `programada` / `flexible` accumulation loop of
`BuquebusClient.fetch_day_full` (`buquebus_client.py` lines 386-403): every
tariff entry is converted with `_to_money` and the *last* matching entry of
each family wins (there is no `break`), even when its conversion yields
`None`. -/

def fullTotals (ts : List TariffTotal) : Option ℚ × Option ℚ :=
  ts.foldl
    (fun acc t =>
      let val := toMoney t.totalAmount
      if t.tariffType = some strPROGRAMADA then (val, acc.2)
      else if t.tariffType = some strFLEXIBLE then (acc.1, val)
      else acc)
    (none, none)

/-- One element of the `/price/full` output list. -/

structure FullItem where
  sailingCode : Option String
  dep : Option String
  arr : Option String
  ship : Option String
  available : Bool
  turista : Option ℚ
  business : Option ℚ
  diff : Option ℚ
deriving DecidableEq, Repr

/-- The item built for one `sailingprice` entry by `fetch_day_full`
(`buquebus_client.py` lines 405-415): times and vessel are copied raw, and
the differential requires both totals present (`is not None`, not
truthiness). -/

def mkFullItem (s : Sailing) : FullItem :=
  let pf := fullTotals s.tariffTotals
  { sailingCode := s.sailingCode
    dep := s.depTime
    arr := s.arrTime
    ship := s.shipName
    available := pyTruthy s.isAvailable
    turista := pf.1
    business := pf.2
    diff :=
      match pf.1, pf.2 with
      | some p, some f => some (ratSub f p)
      | _, _ => none }

/-- `BuquebusClient.fetch_day_full` (`buquebus_client.py` lines 366-416) as
a function of the `(status, body)` pair of `fetch_price`: a non-200 status
is forwarded with the raw body, else one item per `sailingprice` entry, in
order, with no filtering. -/

def fetchDayFull (st : Nat) (raw : RawResponse) : Nat × (RawResponse ⊕ List FullItem) :=
  if st ≠ 200 then (st, Sum.inl raw)
  else (200, Sum.inr (raw.sailings.map mkFullItem))

/-!
Model of `_call_price_availability`. The network interaction is an oracle:
`requests.post` either raises (transport failure / timeout) or yields a
response with a status code and a body that is empty, JSON, or non-JSON
(`resp.json()` raising `ValueError`). The function's observable behaviour
is a pure function of that oracle outcome; `Except.error` models an
exception escaping the function.
-/

/-- What the network did for one POST. -/

inductive HttpOutcome where
  | exn : String → HttpOutcome
  | respEmpty : Nat → HttpOutcome
  | respJson : Nat → RawResponse → HttpOutcome
  | respNotJson : Nat → String → HttpOutcome
deriving DecidableEq, Repr

/-- A returned body: parsed JSON or the `str(e)` of a swallowed exception. -/

inductive PABody where
  | jsonBody : RawResponse → PABody
  | text : String → PABody
deriving DecidableEq, Repr

/-- `BuquebusClient._call_price_availability` (`buquebus_client.py` lines
213-228) and the `BuquebusClientV2` override (`buquebus_clientV2.py` lines
26-43), which wrap both the POST and the JSON decode in
`try ... except Exception as e: return 500, str(e)`; an empty body becomes
`{}` (a response with no sailings). -/

def callPriceAvailabilityAR (o : HttpOutcome) : Except String (Nat × PABody) :=
  match o with
  | .exn e => Except.ok (500, PABody.text e)
  | .respEmpty st => Except.ok (st, PABody.jsonBody ⟨[]⟩)
  | .respJson st r => Except.ok (st, PABody.jsonBody r)
  | .respNotJson _ e => Except.ok (500, PABody.text e)

/-- `BuquebusClientUYU._call_price_availability` (`buquebus_clientUYU.py`
lines 161-177): no `try`/`except` at all — a transport failure or a
JSON-decode failure propagates to the caller. -/

def callPriceAvailabilityUYU (o : HttpOutcome) : Except String (Nat × PABody) :=
  match o with
  | .exn e => Except.error e
  | .respEmpty st => Except.ok (st, PABody.jsonBody ⟨[]⟩)
  | .respJson st r => Except.ok (st, PABody.jsonBody r)
  | .respNotJson _ e => Except.error e

/-!
Model of the on-disk credential cache. The cache file is either missing,
unreadable/not-JSON (every parse error is swallowed), or a parsed dict with
optional `token` and `exp` fields; `exp`, when present, is an integer
timestamp.
-/

/-- The state of `token_cache.json` as seen by one read. -/

inductive CacheFile where
  | missing : CacheFile
  | malformed : CacheFile
  | parsed : Option String → Option Int → CacheFile
deriving DecidableEq, Repr

/-- `BuquebusClient._get_cached_token` (`buquebus_client.py` lines 88-98):
returns the token only when `tok and exp and int(exp) > _now_ts()` — a
missing, empty, or unparseable file yields `None`, and so do an empty
token, a *missing* (`None`) expiry, a zero expiry (falsy), and an expiry
not in the future. -/

def getCachedTokenAR (file : CacheFile) (now : Int) : Option String :=
  match file with
  | .missing => none
  | .malformed => none
  | .parsed tok exp =>
    match tok, exp with
    | some t, some e => if t ≠ "" ∧ e ≠ 0 ∧ e > now then some t else none
    | _, _ => none

/-- `BuquebusClientUYU._get_cached_token` (`buquebus_clientUYU.py` lines
48-56): `data.get("token") and data.get("exp", 0) > self._now_ts()` — a
missing expiry defaults to `0`, which is never greater than the clock. -/

def getCachedTokenUYU (file : CacheFile) (now : Int) : Option String :=
  match file with
  | .missing => none
  | .malformed => none
  | .parsed tok exp =>
    match tok with
    | some t => if t ≠ "" ∧ exp.getD 0 > now then some t else none
    | none => none

/-- The validity verdict of the `/debug/token` endpoint (`api.py` line
130): `valid = (exp is None) or (int(exp) > int(time.time()))`. -/

def debugTokenValid (exp : Option Int) (now : Int) : Bool :=
  match exp with
  | none => true
  | some e => decide (e > now)

/-!
Model of `_normalize_date_to_yymmdd`. Python strings are embedded as
character lists so that `split` / slicing behave transparently. Unpacking
`a, b, c = s.split(x)` raises unless the split has exactly three parts;
that exception is modelled as `none`.
-/

/-- Python `s.zfill(2)` on a digit string: left-pad with `'0'` to length 2. -/

def zfill2 (s : List Char) : List Char :=
  List.replicate (2 - s.length) '0' ++ s

/-- Python `s[-2:]`. -/

def lastTwo (s : List Char) : List Char :=
  s.drop (s.length - 2)

/-- `BuquebusClient._normalize_date_to_yymmdd` (`buquebus_client.py` lines
70-85): strip; a 6-digit string is sliced into `(YY, MM, DD)`; a string
containing `/` is unpacked as `DD/MM/YYYY`; anything else is unpacked as
`YYYY-MM-DD`; both unpacked forms yield `(yyyy[-2:], mm.zfill(2),
dd.zfill(2))`. -/

def normalizeDateToYymmdd (fecha : List Char) :
    Option (List Char × List Char × List Char) :=
  if (pyStrip fecha).length = 6 ∧ (pyStrip fecha).all Char.isDigit then
    some ((pyStrip fecha).take 2,
      (((pyStrip fecha).drop 2).take 2, (pyStrip fecha).drop 4))
  else if '/' ∈ pyStrip fecha then
    match splitOnC '/' (pyStrip fecha) with
    | [dd, mm, yyyy] => some (lastTwo yyyy, (zfill2 mm, zfill2 dd))
    | _ => none
  else
    match splitOnC '-' (pyStrip fecha) with
    | [yyyy, mm, dd] => some (lastTwo yyyy, (zfill2 mm, zfill2 dd))
    | _ => none

/-!
Model of concurrent `_get_valid_token` callers. Each caller runs the token
acquisition protocol of its market against shared state (the token cache
and, for the UYU market, the class-level `threading.Lock`); an interleaving
semantics is given by one labelled step relation per market. The
environment override (`BQB_STATIC_TOKEN`) is absent, matching the claim's
premise of callers that actually consult the store. A browser acquisition
by caller `i` is modelled as producing the token `tokenOf i` — runs of
`_obtain_token_via_playwright` are independent browser sessions and may
observe different tokens — and `acq` counts how many acquisitions were
launched.
-/

/-- Program counter of one `_get_valid_token` caller. -/

inductive TokPc where
  | start : TokPc
  | waitLock : TokPc
  | locked : TokPc
  | toAcquire : TokPc
  | toWrite : Nat → TokPc
  | finished : TokPc
deriving DecidableEq, Repr

/-- Shared state of `n` concurrent callers of one market's
`_get_valid_token`. -/

structure TokSt (n : Nat) where
  cache : Option Nat
  lock : Option (Fin n)
  pc : Fin n → TokPc
  res : Fin n → Option Nat
  acq : Nat

/-- The token a browser acquisition launched by caller `i` captures. -/

def tokenOf {n : Nat} (i : Fin n) : Nat := i.val + 1

/-- All callers at the first cache check, nothing cached, lock free. -/

def tokInit (n : Nat) : TokSt n :=
  { cache := none, lock := none, pc := fun _ => TokPc.start
    res := fun _ => none, acq := 0 }

/-- Move caller `i` to program point `p`. -/

def TokSt.setPc {n : Nat} (s : TokSt n) (i : Fin n) (p : TokPc) : TokSt n :=
  { s with pc := Function.update s.pc i p }

/-- Caller `i` returns token `t`. -/

def TokSt.finishWith {n : Nat} (s : TokSt n) (i : Fin n) (t : Nat) : TokSt n :=
  { s with pc := Function.update s.pc i TokPc.finished
           res := Function.update s.res i (some t) }

/-- One interleaved step of `BuquebusClient._get_valid_token`
(`buquebus_client.py` lines 106-122; inherited unchanged by
`BuquebusClientV2`): read the cache, and on a miss run the browser
acquisition and save the token — with no lock anywhere. -/

inductive StepAR {n : Nat} : TokSt n → TokSt n → Prop where
  | readHit (s : TokSt n) (i : Fin n) (t : Nat) :
      s.pc i = TokPc.start → s.cache = some t →
      StepAR s (s.finishWith i t)
  | readMiss (s : TokSt n) (i : Fin n) :
      s.pc i = TokPc.start → s.cache = none →
      StepAR s (s.setPc i TokPc.toAcquire)
  | acquire (s : TokSt n) (i : Fin n) :
      s.pc i = TokPc.toAcquire →
      StepAR s { s.setPc i (TokPc.toWrite (tokenOf i)) with acq := s.acq + 1 }
  | write (s : TokSt n) (i : Fin n) (t : Nat) :
      s.pc i = TokPc.toWrite t →
      StepAR s { s.finishWith i t with cache := some t }

/-- One interleaved step of `BuquebusClientUYU._get_valid_token`
(`buquebus_clientUYU.py` lines 67-84): cache check, then the
`with self._token_lock:` block re-checks the cache before acquiring and
saving; the lock-release on the block's two exits is part of the
corresponding step, and steps inside the block carry the fact that the
stepping caller holds the lock. -/

inductive StepUYU {n : Nat} : TokSt n → TokSt n → Prop where
  | readHit (s : TokSt n) (i : Fin n) (t : Nat) :
      s.pc i = TokPc.start → s.cache = some t →
      StepUYU s (s.finishWith i t)
  | readMiss (s : TokSt n) (i : Fin n) :
      s.pc i = TokPc.start → s.cache = none →
      StepUYU s (s.setPc i TokPc.waitLock)
  | takeLock (s : TokSt n) (i : Fin n) :
      s.pc i = TokPc.waitLock → s.lock = none →
      StepUYU s { s.setPc i TokPc.locked with lock := some i }
  | recheckHit (s : TokSt n) (i : Fin n) (t : Nat) :
      s.pc i = TokPc.locked → s.lock = some i → s.cache = some t →
      StepUYU s { s.finishWith i t with lock := none }
  | recheckMiss (s : TokSt n) (i : Fin n) :
      s.pc i = TokPc.locked → s.lock = some i → s.cache = none →
      StepUYU s (s.setPc i TokPc.toAcquire)
  | acquire (s : TokSt n) (i : Fin n) :
      s.pc i = TokPc.toAcquire → s.lock = some i →
      StepUYU s { s.setPc i (TokPc.toWrite (tokenOf i)) with acq := s.acq + 1 }
  | write (s : TokSt n) (i : Fin n) (t : Nat) :
      s.pc i = TokPc.toWrite t → s.lock = some i →
      StepUYU s { s.finishWith i t with cache := some t, lock := none }

/-- States reachable by interleaving `n` AR-market callers. -/

def ReachableAR (n : Nat) (s : TokSt n) : Prop :=
  Relation.ReflTransGen StepAR (tokInit n) s

/-- States reachable by interleaving `n` UYU-market callers. -/

def ReachableUYU (n : Nat) (s : TokSt n) : Prop :=
  Relation.ReflTransGen StepUYU (tokInit n) s

/-- Caller `i` is inside the `with self._token_lock:` block. -/

def inCrit (p : TokPc) : Prop :=
  p = TokPc.locked ∨ p = TokPc.toAcquire ∨ ∃ t, p = TokPc.toWrite t

/-- Inductive invariant of the UYU protocol: lock discipline, the cache is
still empty while anyone is past the re-check, acquisitions only start
before the first one finished, at most one acquisition ever starts, an
in-flight acquisition is visible, and every returned token is the cached
one. -/

structure TokInv {n : Nat} (s : TokSt n) : Prop where
  critLock : ∀ i, inCrit (s.pc i) → s.lock = some i
  cacheNone : ∀ i, (s.pc i = TokPc.toAcquire ∨ ∃ t, s.pc i = TokPc.toWrite t) →
    s.cache = none
  acqZero : ∀ i, s.pc i = TokPc.toAcquire → s.acq = 0
  acqLe : s.acq ≤ 1
  acqOne : s.acq = 1 → s.cache ≠ none ∨ ∃ i t, s.pc i = TokPc.toWrite t
  resCache : ∀ i t, s.res i = some t → s.cache = some t

/-- `mapa.get(code)`-style accessors used to state the merge properties. -/

def entryAmount (m : List (String × MapEntry)) (code : String) : Option ℚ :=
  (dget code m).map MapEntry.amount

/-- Departure-time component of a per-class tuple (`None` when the code is
absent from the class's map). -/

def entryHs (m : List (String × MapEntry)) (code : String) : Option String :=
  (dget code m).bind MapEntry.hs

/-- Arrival-time component of a per-class tuple. -/

def entryHa (m : List (String × MapEntry)) (code : String) : Option String :=
  (dget code m).bind MapEntry.ha

/-- Ship-name component of a per-class tuple. -/

def entryShip (m : List (String × MapEntry)) (code : String) : Option String :=
  (dget code m).bind MapEntry.ship

/-- The integer-cents example string of the money-conversion property. -/

def strCents : String := "8623440"

/-- A lower-case spelling of the sentinel, normalized by `strip`/`upper`. -/

def strNaLc : String := " n/a "

/-- A non-numeric string. -/

def strAbc : String := "abc"

/-- A cached token value. -/

def strTok : String := "tok"

/-- The message of a transport failure. -/

def strTimeout : String := "timeout"

/-- A 4-character, non-digit raw time value. -/

def strAbcd : String := "abcd"

/-- Its reformatted image under the length-4 rule. -/

def strAbcdColon : String := "ab:cd"

/-- A sailing code used by the concrete examples. -/

def strCode1 : String := "S1"

/-- An integer-cents amount string used by the concrete examples. -/

def strAmount1 : String := "100000"

/-- A sailing whose departure-time field is the non-digit 4-character
string `"abcd"` but which carries a valid `PROGRAMADA` total. -/

def sailingBadTime : Sailing :=
  { sailingCode := some strCode1
    depTime := some strAbcd
    arrTime := none
    shipName := none
    isAvailable := PyVal.vNone
    tariffTotals := [{ tariffType := some strPROGRAMADA
                       totalAmount := PyVal.vStr strAmount1 }] }

/-- A digit 4-character time code and its reformatted image. -/

def str0830 : String := "0830"

/-- `"08:30"`. -/

def str0830Colon : String := "08:30"

/-- A sailing that carries no tariff totals at all. -/

def sailingNoTotals : Sailing :=
  { sailingCode := some strCode1
    depTime := some str0830
    arrTime := none
    shipName := none
    isAvailable := PyVal.vInt 1
    tariffTotals := [] }

/-- A 200-status body with no sailings. -/

def rawEmptyResp : RawResponse := ⟨[]⟩

/-- The raw 4-digit departure code of the business-class example. -/

def str0845raw : String := "0845"

/-- Its formatted image `"08:45"`. -/

def str0845 : String := "08:45"

/-- The raw arrival code of the business-class example. -/

def str1200raw : String := "1200"

/-- A vessel name. -/

def strShip1 : String := "Papa"

/-- A sailing with full time/vessel data and a valid `PROGRAMADA` total,
appearing only in the business-class response of the example. -/

def sailingBiz : Sailing :=
  { sailingCode := some strCode1
    depTime := some str0845raw
    arrTime := some str1200raw
    shipName := some strShip1
    isAvailable := PyVal.vInt 1
    tariffTotals := [{ tariffType := some strPROGRAMADA
                       totalAmount := PyVal.vStr strAmount1 }] }

/-- A 200-status body whose only sailing is `sailingBiz`. -/

def rawBiz : RawResponse := ⟨[sailingBiz]⟩

/-- The single row merged from the C1 example data. -/

def c1Row : Row :=
  mkRow curARS (totalesProgramadaPorSailing rawEmptyResp)
    (totalesProgramadaPorSailing rawBiz)
    (totalesProgramadaPorSailing rawEmptyResp)
    (economyMap (200, rawEmptyResp)) strCode1

/-- Both AR callers past their cache miss. -/

def arS1 : TokSt 2 := (tokInit 2).setPc 0 TokPc.toAcquire

/-- Second AR caller also past its cache miss. -/

def arS2 : TokSt 2 := arS1.setPc 1 TokPc.toAcquire

/-- First AR caller has launched a browser acquisition. -/

def arS3 : TokSt 2 :=
  { arS2.setPc 0 (TokPc.toWrite (tokenOf (0 : Fin 2))) with acq := arS2.acq + 1 }

/-- Second AR caller has launched its own browser acquisition. -/

def arS4 : TokSt 2 :=
  { arS3.setPc 1 (TokPc.toWrite (tokenOf (1 : Fin 2))) with acq := arS3.acq + 1 }

/-- First AR caller saved and returned its token. -/

def arS5 : TokSt 2 :=
  { arS4.finishWith 0 (tokenOf (0 : Fin 2)) with cache := some (tokenOf (0 : Fin 2)) }

/-- Second AR caller saved and returned its (different) token. -/

def arS6 : TokSt 2 :=
  { arS5.finishWith 1 (tokenOf (1 : Fin 2)) with cache := some (tokenOf (1 : Fin 2)) }

/-- Caller 0 of the UYU protocol holding the lock after its re-check. -/

def uyS1 : TokSt 2 := (tokInit 2).setPc 0 TokPc.waitLock

/-- Caller 0 inside the critical section. -/

def uyS2 : TokSt 2 := { uyS1.setPc 0 TokPc.locked with lock := some (0 : Fin 2) }

/-- Caller 0 past the re-check. -/

def uyS3 : TokSt 2 := uyS2.setPc 0 TokPc.toAcquire

theorem dget_dinsert_same {α : Type} (k : String) (v : α) (m : List (String × α)) :
    dget k (dinsert k v m) = some v := by
  induction m with
  | nil => simp [dinsert, dget]
  | cons h t ih =>
    obtain ⟨k2, v2⟩ := h
    by_cases hk : k2 = k
    · simp [dinsert, dget, hk]
    · simp [dinsert, dget, hk, ih]

theorem dget_dinsert_ne {α : Type} {k k2 : String} (hne : k2 ≠ k) (v : α)
    (m : List (String × α)) : dget k (dinsert k2 v m) = dget k m := by
  induction m with
  | nil => simp [dinsert, dget, hne]
  | cons h t ih =>
    obtain ⟨k3, v3⟩ := h
    by_cases hk : k3 = k2
    · subst hk
      simp [dinsert, dget, hne, ih]
    · by_cases hk3 : k3 = k
      · simp [dinsert, dget, hk, hk3, Ne.symm hne]
      · simp [dinsert, dget, hk, hk3, ih]

theorem tokInv_init (n : Nat) : TokInv (tokInit n) := by
  constructor
  · intro i h
    rcases h with h | h | ⟨t, h⟩ <;> simp [tokInit] at h
  · intro i h
    rcases h with h | ⟨t, h⟩ <;> simp [tokInit] at h
  · intro i h
    simp [tokInit] at h
  · simp [tokInit]
  · intro h
    simp [tokInit] at h
  · intro i t h
    simp [tokInit] at h

theorem tokInv_step {n : Nat} {s s2 : TokSt n} (inv : TokInv s)
    (st : StepUYU s s2) : TokInv s2 := by
  cases st with
  | readHit i t h1 h2 =>
    constructor
    · intro j hj
      by_cases hji : j = i
      · subst hji
        simp [TokSt.finishWith, inCrit] at hj
      · simpa [TokSt.finishWith, Function.update_noteq hji] using
          inv.critLock j (by simpa [TokSt.finishWith, Function.update_noteq hji] using hj)
    · intro j hj
      by_cases hji : j = i
      · subst hji
        simp [TokSt.finishWith] at hj
      · exact inv.cacheNone j (by simpa [TokSt.finishWith, Function.update_noteq hji] using hj)
    · intro j hj
      by_cases hji : j = i
      · subst hji
        simp [TokSt.finishWith] at hj
      · exact inv.acqZero j (by simpa [TokSt.finishWith, Function.update_noteq hji] using hj)
    · exact inv.acqLe
    · intro h
      rcases inv.acqOne h with hc | ⟨j, u, hj⟩
      · exact Or.inl hc
      · refine Or.inr ⟨j, u, ?_⟩
        have hji : j ≠ i := by
          intro he
          rw [he, h1] at hj
          exact TokPc.noConfusion hj
        simpa [TokSt.finishWith, Function.update_noteq hji] using hj
    · intro j u hj
      by_cases hji : j = i
      · subst hji
        simp only [TokSt.finishWith, Function.update_same] at hj
        rw [← Option.some_inj.mp hj]
        exact h2
      · exact inv.resCache j u (by simpa [TokSt.finishWith, Function.update_noteq hji] using hj)
  | readMiss i h1 h2 =>
    constructor
    · intro j hj
      by_cases hji : j = i
      · subst hji
        simp [TokSt.setPc, inCrit] at hj
      · exact inv.critLock j (by simpa [TokSt.setPc, Function.update_noteq hji] using hj)
    · intro j hj
      by_cases hji : j = i
      · subst hji
        simp [TokSt.setPc] at hj
      · exact inv.cacheNone j (by simpa [TokSt.setPc, Function.update_noteq hji] using hj)
    · intro j hj
      by_cases hji : j = i
      · subst hji
        simp [TokSt.setPc] at hj
      · exact inv.acqZero j (by simpa [TokSt.setPc, Function.update_noteq hji] using hj)
    · exact inv.acqLe
    · intro h
      rcases inv.acqOne h with hc | ⟨j, u, hj⟩
      · exact Or.inl hc
      · refine Or.inr ⟨j, u, ?_⟩
        have hji : j ≠ i := by
          intro he
          rw [he, h1] at hj
          exact TokPc.noConfusion hj
        simpa [TokSt.setPc, Function.update_noteq hji] using hj
    · intro j u hj
      exact inv.resCache j u (by simpa [TokSt.setPc] using hj)
  | takeLock i h1 h2 =>
    constructor
    · intro j hj
      by_cases hji : j = i
      · simp [hji]
      · have hj2 : inCrit (s.pc j) := by
          simpa [TokSt.setPc, Function.update_noteq hji] using hj
        have := inv.critLock j hj2
        rw [h2] at this
        exact Option.noConfusion this
    · intro j hj
      by_cases hji : j = i
      · subst hji
        simp [TokSt.setPc] at hj
      · exact inv.cacheNone j (by simpa [TokSt.setPc, Function.update_noteq hji] using hj)
    · intro j hj
      by_cases hji : j = i
      · subst hji
        simp [TokSt.setPc] at hj
      · exact inv.acqZero j (by simpa [TokSt.setPc, Function.update_noteq hji] using hj)
    · exact inv.acqLe
    · intro h
      rcases inv.acqOne h with hc | ⟨j, u, hj⟩
      · exact Or.inl hc
      · refine Or.inr ⟨j, u, ?_⟩
        have hji : j ≠ i := by
          intro he
          rw [he, h1] at hj
          exact TokPc.noConfusion hj
        simpa [TokSt.setPc, Function.update_noteq hji] using hj
    · intro j u hj
      exact inv.resCache j u (by simpa [TokSt.setPc] using hj)
  | recheckHit i t h1 h2 h3 =>
    constructor
    · intro j hj
      by_cases hji : j = i
      · subst hji
        simp [TokSt.finishWith, inCrit] at hj
      · have hj2 : inCrit (s.pc j) := by
          simpa [TokSt.finishWith, Function.update_noteq hji] using hj
        have := (inv.critLock j hj2).symm.trans h2
        exact absurd (Option.some_inj.mp this) hji
    · intro j hj
      by_cases hji : j = i
      · subst hji
        simp [TokSt.finishWith] at hj
      · have hj2 := (by simpa [TokSt.finishWith, Function.update_noteq hji] using hj :
          s.pc j = TokPc.toAcquire ∨ ∃ u, s.pc j = TokPc.toWrite u)
        have hcrit : inCrit (s.pc j) := by
          rcases hj2 with h | ⟨u, h⟩
          · exact Or.inr (Or.inl h)
          · exact Or.inr (Or.inr ⟨u, h⟩)
        have := (inv.critLock j hcrit).symm.trans h2
        exact absurd (Option.some_inj.mp this) hji
    · intro j hj
      by_cases hji : j = i
      · subst hji
        simp [TokSt.finishWith] at hj
      · exact inv.acqZero j (by simpa [TokSt.finishWith, Function.update_noteq hji] using hj)
    · exact inv.acqLe
    · intro _
      refine Or.inl ?_
      show s.cache ≠ none
      rw [h3]
      exact Option.noConfusion
    · intro j u hj
      by_cases hji : j = i
      · subst hji
        simp only [TokSt.finishWith, Function.update_same] at hj
        show s.cache = some u
        rw [h3, Option.some_inj.mp hj]
      · exact inv.resCache j u (by simpa [TokSt.finishWith, Function.update_noteq hji] using hj)
  | recheckMiss i h1 h2 h3 =>
    have hacq0 : s.acq = 0 := by
      rcases Nat.lt_or_ge s.acq 1 with h | h
      · omega
      · have h4 : s.acq = 1 := le_antisymm inv.acqLe h
        rcases inv.acqOne h4 with hc | ⟨j, u, hj⟩
        · exact absurd h3 hc
        · have : s.lock = some j :=
            inv.critLock j (Or.inr (Or.inr ⟨u, hj⟩))
          have hji : j = i := Option.some_inj.mp (this.symm.trans h2)
          rw [hji, h1] at hj
          exact TokPc.noConfusion hj
    constructor
    · intro j hj
      by_cases hji : j = i
      · subst hji
        simpa [TokSt.setPc] using h2
      · exact inv.critLock j (by simpa [TokSt.setPc, Function.update_noteq hji] using hj)
    · intro j hj
      simpa [TokSt.setPc] using h3
    · intro j hj
      simpa [TokSt.setPc] using hacq0
    · exact inv.acqLe
    · intro h
      simp [TokSt.setPc] at h
      omega
    · intro j u hj
      exact inv.resCache j u (by simpa [TokSt.setPc] using hj)
  | acquire i h1 h2 =>
    have hacq0 : s.acq = 0 := inv.acqZero i h1
    constructor
    · intro j hj
      by_cases hji : j = i
      · subst hji
        simpa [TokSt.setPc] using h2
      · exact inv.critLock j (by simpa [TokSt.setPc, Function.update_noteq hji] using hj)
    · intro j hj
      simpa [TokSt.setPc] using inv.cacheNone i (Or.inl h1)
    · intro j hj
      by_cases hji : j = i
      · subst hji
        simp [TokSt.setPc] at hj
      · have hj2 : s.pc j = TokPc.toAcquire := by
          simpa [TokSt.setPc, Function.update_noteq hji] using hj
        have : s.lock = some j := inv.critLock j (Or.inr (Or.inl hj2))
        have hji2 : j = i := Option.some_inj.mp (this.symm.trans h2)
        exact absurd hji2 hji
    · simp [TokSt.setPc]
      omega
    · intro _
      refine Or.inr ⟨i, tokenOf i, ?_⟩
      simp [TokSt.setPc]
    · intro j u hj
      have hr : s.res j = some u := by simpa [TokSt.setPc] using hj
      have := inv.resCache j u hr
      have hnone := inv.cacheNone i (Or.inl h1)
      rw [hnone] at this
      exact Option.noConfusion this
  | write i t h1 h2 =>
    constructor
    · intro j hj
      by_cases hji : j = i
      · subst hji
        simp [TokSt.finishWith, inCrit] at hj
      · have hj2 : inCrit (s.pc j) := by
          simpa [TokSt.finishWith, Function.update_noteq hji] using hj
        have := (inv.critLock j hj2).symm.trans h2
        exact absurd (Option.some_inj.mp this) hji
    · intro j hj
      by_cases hji : j = i
      · subst hji
        simp [TokSt.finishWith] at hj
      · have hj2 := (by simpa [TokSt.finishWith, Function.update_noteq hji] using hj :
          s.pc j = TokPc.toAcquire ∨ ∃ u, s.pc j = TokPc.toWrite u)
        have hcrit : inCrit (s.pc j) := by
          rcases hj2 with h | ⟨u, h⟩
          · exact Or.inr (Or.inl h)
          · exact Or.inr (Or.inr ⟨u, h⟩)
        have := (inv.critLock j hcrit).symm.trans h2
        exact absurd (Option.some_inj.mp this) hji
    · intro j hj
      by_cases hji : j = i
      · subst hji
        simp [TokSt.finishWith] at hj
      · have hj2 : s.pc j = TokPc.toAcquire := by
          simpa [TokSt.finishWith, Function.update_noteq hji] using hj
        have := (inv.critLock j (Or.inr (Or.inl hj2))).symm.trans h2
        exact absurd (Option.some_inj.mp this) hji
    · exact inv.acqLe
    · intro _
      refine Or.inl ?_
      simp [TokSt.finishWith]
    · intro j u hj
      by_cases hji : j = i
      · subst hji
        simp only [TokSt.finishWith, Function.update_same] at hj
        simp [TokSt.finishWith, Option.some_inj.mp hj]
      · have hr : s.res j = some u := by
          simpa [TokSt.finishWith, Function.update_noteq hji] using hj
        have := inv.resCache j u hr
        have hnone := inv.cacheNone i (Or.inr ⟨t, h1⟩)
        rw [hnone] at this
        exact Option.noConfusion this

theorem tokInv_reachable {n : Nat} {s : TokSt n} (h : ReachableUYU n s) :
    TokInv s := by
  induction h with
  | refl => exact tokInv_init n
  | tail _ st ih => exact tokInv_step ih st

theorem dget_extract_fold_none (f : List TariffTotal → Option ℚ)
    (mkE : Sailing → ℚ → MapEntry) (l : List Sailing)
    (out : List (String × MapEntry)) (code : String)
    (h0 : dget code out = none)
    (h : ∀ s ∈ l, s.sailingCode = some code → f s.tariffTotals = none) :
    dget code (l.foldl (extractStep f mkE) out) = none := by
  induction l generalizing out with
  | nil => exact h0
  | cons s rest ih =>
    simp only [List.foldl_cons]
    refine ih (extractStep f mkE out s) ?_ fun v hv => h v (List.mem_cons_of_mem s hv)
    unfold extractStep
    match hc : s.sailingCode, hf : f s.tariffTotals with
    | some c, some q =>
      have hcc : c ≠ code := by
        intro he
        subst he
        rw [h s (List.mem_cons_self s rest) hc] at hf
        exact Option.noConfusion hf
      show dget code (if c ≠ "" then dinsert c (mkE s q) out else out) = none
      by_cases hne : c ≠ ""
      · rw [if_pos hne, dget_dinsert_ne hcc]
        exact h0
      · rw [if_neg hne]
        exact h0
    | some c, none => exact h0
    | none, _ => exact h0

theorem dget_extract_fold_some (f : List TariffTotal → Option ℚ)
    (mkE : Sailing → ℚ → MapEntry) (l : List Sailing)
    (out : List (String × MapEntry)) (code : String) (e : MapEntry)
    (hfound : dget code (l.foldl (extractStep f mkE) out) = some e) :
    dget code out = some e ∨
      ∃ s ∈ l, s.sailingCode = some code ∧ ∃ q, f s.tariffTotals = some q ∧ e = mkE s q := by
  induction l generalizing out with
  | nil => exact Or.inl hfound
  | cons s rest ih =>
    simp only [List.foldl_cons] at hfound
    rcases ih (extractStep f mkE out s) hfound with h1 | ⟨v, hv, hcode, q, hq, he⟩
    · unfold extractStep at h1
      match hc : s.sailingCode, hf : f s.tariffTotals with
      | some c, some q =>
        rw [hc, hf] at h1
        replace h1 : dget code (if c ≠ "" then dinsert c (mkE s q) out else out) = some e := h1
        by_cases hne : c ≠ ""
        · rw [if_pos hne] at h1
          by_cases hcc : c = code
          · subst hcc
            rw [dget_dinsert_same] at h1
            exact Or.inr ⟨s, List.mem_cons_self s rest, hc, q,
              hf, (Option.some_inj.mp h1).symm⟩
          · rw [dget_dinsert_ne hcc] at h1
            exact Or.inl h1
        · rw [if_neg hne] at h1
          exact Or.inl h1
      | some c, none =>
        rw [hc, hf] at h1
        exact Or.inl h1
      | none, hfv =>
        rw [hc] at h1
        exact Or.inl h1
    · exact Or.inr ⟨v, List.mem_cons_of_mem s hv, hcode, q, hq, he⟩

theorem mem_insRow {a b : Row} {l : List Row} :
    a ∈ insRow b l ↔ a = b ∨ a ∈ l := by
  induction l with
  | nil => simp [insRow]
  | cons c rest ih =>
    unfold insRow
    by_cases h : strLe (rowKey b) (rowKey c) = true
    · rw [if_pos h]
      simp
    · rw [if_neg h]
      simp only [List.mem_cons, ih]
      tauto

theorem mem_pySortRows {a : Row} {l : List Row} :
    a ∈ pySortRows l ↔ a ∈ l := by
  induction l with
  | nil => simp [pySortRows]
  | cons c rest ih =>
    simp only [pySortRows, List.foldr_cons] at ih ⊢
    rw [mem_insRow, ih, List.mem_cons]

theorem mem_mergeRows {cur : String} {mt mb mp me : List (String × MapEntry)}
    {row : Row} (h : row ∈ mergeRows cur mt mb mp me) :
    ∃ code, row = mkRow cur mt mb mp me code := by
  unfold mergeRows at h
  rw [mem_pySortRows] at h
  rcases List.mem_map.mp h with ⟨code, _, he⟩
  exact ⟨code, he.symm⟩

theorem pyIsSpace_eq_false_of_isDigit {c : Char} (h : c.isDigit = true) :
    pyIsSpace c = false := by
  simp only [pyIsSpace, decide_eq_false_iff_not]
  rintro (he | he | he | he | he | he) <;>
    (subst he; exact absurd h (by decide))

theorem ne_slash_of_isDigit {c : Char} (h : c.isDigit = true) : c ≠ '/' := by
  intro he
  subst he
  exact absurd h (by decide)

theorem ne_dash_of_isDigit {c : Char} (h : c.isDigit = true) : c ≠ '-' := by
  intro he
  subst he
  exact absurd h (by decide)

theorem dropWhile_eq_self_of_false {p : Char → Bool} {l : List Char}
    (h : ∀ c ∈ l, p c = false) : l.dropWhile p = l := by
  cases l with
  | nil => rfl
  | cons c rest => simp [List.dropWhile_cons, h c (List.mem_cons_self c rest)]

theorem pyStrip_eq_self {l : List Char} (h : ∀ c ∈ l, pyIsSpace c = false) :
    pyStrip l = l := by
  unfold pyStrip
  rw [dropWhile_eq_self_of_false h]
  rw [dropWhile_eq_self_of_false fun c hc => h c (List.mem_reverse.mp hc)]
  exact List.reverse_reverse l

theorem splitOnC_cons (sep c : Char) (rest : List Char) :
    splitOnC sep (c :: rest) =
      if c = sep then [] :: splitOnC sep rest
      else
        match splitOnC sep rest with
        | [] => [[c]]
        | h :: t => (c :: h) :: t := rfl

theorem splitOnC_no_sep {sep : Char} {a : List Char} (h : ∀ c ∈ a, c ≠ sep) :
    splitOnC sep a = [a] := by
  induction a with
  | nil => rfl
  | cons c rest ih =>
    rw [splitOnC_cons, if_neg (h c (List.mem_cons_self c rest))]
    rw [ih fun x hx => h x (List.mem_cons_of_mem c hx)]

theorem splitOnC_append {sep : Char} {a : List Char} (b : List Char)
    (h : ∀ c ∈ a, c ≠ sep) :
    splitOnC sep (a ++ sep :: b) = a :: splitOnC sep b := by
  induction a with
  | nil =>
    show splitOnC sep (sep :: b) = [] :: splitOnC sep b
    rw [splitOnC_cons, if_pos rfl]
  | cons c rest ih =>
    show splitOnC sep (c :: (rest ++ sep :: b)) = (c :: rest) :: splitOnC sep b
    rw [splitOnC_cons, if_neg (h c (List.mem_cons_self c rest))]
    rw [ih fun x hx => h x (List.mem_cons_of_mem c hx)]

/-- C6: every valid calendar date presented as `YYYY-MM-DD`, `DD/MM/YYYY`,
or `YYMMDD` normalizes to the identical `(YY, MM, DD)` triple, and a
6-digit input is returned unchanged (its slices reassemble to the input).
The date's digits are quantified as characters: year `y1 y2 y3 y4`, month
`m1 m2`, day `d1 d2`. -/

theorem normalizeDate_same_date_agrees
    (y1 y2 y3 y4 m1 m2 d1 d2 : Char)
    (hy1 : y1.isDigit = true) (hy2 : y2.isDigit = true)
    (hy3 : y3.isDigit = true) (hy4 : y4.isDigit = true)
    (hm1 : m1.isDigit = true) (hm2 : m2.isDigit = true)
    (hd1 : d1.isDigit = true) (hd2 : d2.isDigit = true) :
    normalizeDateToYymmdd [y1, y2, y3, y4, '-', m1, m2, '-', d1, d2]
        = some ([y3, y4], ([m1, m2], [d1, d2])) ∧
      normalizeDateToYymmdd [d1, d2, '/', m1, m2, '/', y1, y2, y3, y4]
        = some ([y3, y4], ([m1, m2], [d1, d2])) ∧
      normalizeDateToYymmdd [y3, y4, m1, m2, d1, d2]
        = some ([y3, y4], ([m1, m2], [d1, d2])) := by
  refine ⟨?_, ?_, ?_⟩
  · have hspace : ∀ c ∈ [y1, y2, y3, y4, '-', m1, m2, '-', d1, d2],
        pyIsSpace c = false := by
      intro c hc
      simp only [List.mem_cons, List.not_mem_nil, or_false] at hc
      rcases hc with rfl | rfl | rfl | rfl | rfl | rfl | rfl | rfl | rfl | rfl
      exacts [pyIsSpace_eq_false_of_isDigit hy1, pyIsSpace_eq_false_of_isDigit hy2,
        pyIsSpace_eq_false_of_isDigit hy3, pyIsSpace_eq_false_of_isDigit hy4,
        by decide, pyIsSpace_eq_false_of_isDigit hm1, pyIsSpace_eq_false_of_isDigit hm2,
        by decide, pyIsSpace_eq_false_of_isDigit hd1, pyIsSpace_eq_false_of_isDigit hd2]
    have hnos : ('/' : Char) ∉ [y1, y2, y3, y4, '-', m1, m2, '-', d1, d2] := by
      intro hmem
      simp only [List.mem_cons, List.not_mem_nil, or_false] at hmem
      rcases hmem with h | h | h | h | h | h | h | h | h | h
      exacts [ne_slash_of_isDigit hy1 h.symm, ne_slash_of_isDigit hy2 h.symm,
        ne_slash_of_isDigit hy3 h.symm, ne_slash_of_isDigit hy4 h.symm,
        absurd h (by decide), ne_slash_of_isDigit hm1 h.symm,
        ne_slash_of_isDigit hm2 h.symm, absurd h (by decide),
        ne_slash_of_isDigit hd1 h.symm, ne_slash_of_isDigit hd2 h.symm]
    have hsplit : splitOnC '-' [y1, y2, y3, y4, '-', m1, m2, '-', d1, d2]
        = [[y1, y2, y3, y4], [m1, m2], [d1, d2]] := by
      have h1 : [y1, y2, y3, y4, '-', m1, m2, '-', d1, d2]
          = [y1, y2, y3, y4] ++ '-' :: ([m1, m2] ++ '-' :: [d1, d2]) := rfl
      rw [h1]
      rw [splitOnC_append _ (by
        intro c hc
        simp only [List.mem_cons, List.not_mem_nil, or_false] at hc
        rcases hc with rfl | rfl | rfl | rfl
        exacts [ne_dash_of_isDigit hy1, ne_dash_of_isDigit hy2,
          ne_dash_of_isDigit hy3, ne_dash_of_isDigit hy4])]
      rw [splitOnC_append _ (by
        intro c hc
        simp only [List.mem_cons, List.not_mem_nil, or_false] at hc
        rcases hc with rfl | rfl
        exacts [ne_dash_of_isDigit hm1, ne_dash_of_isDigit hm2])]
      rw [splitOnC_no_sep (by
        intro c hc
        simp only [List.mem_cons, List.not_mem_nil, or_false] at hc
        rcases hc with rfl | rfl
        exacts [ne_dash_of_isDigit hd1, ne_dash_of_isDigit hd2])]
    unfold normalizeDateToYymmdd
    rw [pyStrip_eq_self hspace]
    rw [if_neg (by simp)]
    rw [if_neg hnos]
    rw [hsplit]
    simp [lastTwo, zfill2]
  · have hspace : ∀ c ∈ [d1, d2, '/', m1, m2, '/', y1, y2, y3, y4],
        pyIsSpace c = false := by
      intro c hc
      simp only [List.mem_cons, List.not_mem_nil, or_false] at hc
      rcases hc with rfl | rfl | rfl | rfl | rfl | rfl | rfl | rfl | rfl | rfl
      exacts [pyIsSpace_eq_false_of_isDigit hd1, pyIsSpace_eq_false_of_isDigit hd2,
        by decide, pyIsSpace_eq_false_of_isDigit hm1, pyIsSpace_eq_false_of_isDigit hm2,
        by decide, pyIsSpace_eq_false_of_isDigit hy1, pyIsSpace_eq_false_of_isDigit hy2,
        pyIsSpace_eq_false_of_isDigit hy3, pyIsSpace_eq_false_of_isDigit hy4]
    have hsplit : splitOnC '/' [d1, d2, '/', m1, m2, '/', y1, y2, y3, y4]
        = [[d1, d2], [m1, m2], [y1, y2, y3, y4]] := by
      have h1 : [d1, d2, '/', m1, m2, '/', y1, y2, y3, y4]
          = [d1, d2] ++ '/' :: ([m1, m2] ++ '/' :: [y1, y2, y3, y4]) := rfl
      rw [h1]
      rw [splitOnC_append _ (by
        intro c hc
        simp only [List.mem_cons, List.not_mem_nil, or_false] at hc
        rcases hc with rfl | rfl
        exacts [ne_slash_of_isDigit hd1, ne_slash_of_isDigit hd2])]
      rw [splitOnC_append _ (by
        intro c hc
        simp only [List.mem_cons, List.not_mem_nil, or_false] at hc
        rcases hc with rfl | rfl
        exacts [ne_slash_of_isDigit hm1, ne_slash_of_isDigit hm2])]
      rw [splitOnC_no_sep (by
        intro c hc
        simp only [List.mem_cons, List.not_mem_nil, or_false] at hc
        rcases hc with rfl | rfl | rfl | rfl
        exacts [ne_slash_of_isDigit hy1, ne_slash_of_isDigit hy2,
          ne_slash_of_isDigit hy3, ne_slash_of_isDigit hy4])]
    unfold normalizeDateToYymmdd
    rw [pyStrip_eq_self hspace]
    rw [if_neg (by simp)]
    rw [if_pos (by simp)]
    rw [hsplit]
    simp [lastTwo, zfill2]
  · have hspace : ∀ c ∈ [y3, y4, m1, m2, d1, d2], pyIsSpace c = false := by
      intro c hc
      simp only [List.mem_cons, List.not_mem_nil, or_false] at hc
      rcases hc with rfl | rfl | rfl | rfl | rfl | rfl
      exacts [pyIsSpace_eq_false_of_isDigit hy3, pyIsSpace_eq_false_of_isDigit hy4,
        pyIsSpace_eq_false_of_isDigit hm1, pyIsSpace_eq_false_of_isDigit hm2,
        pyIsSpace_eq_false_of_isDigit hd1, pyIsSpace_eq_false_of_isDigit hd2]
    unfold normalizeDateToYymmdd
    rw [pyStrip_eq_self hspace]
    rw [if_pos (by
      refine ⟨by simp, ?_⟩
      simp [hy3, hy4, hm1, hm2, hd1, hd2])]
    simp

theorem ratDivNat_eq (q : ℚ) (m : Nat) : ratDivNat q m = q / m := by
  rw [ratDivNat, Rat.divInt_eq_div]
  conv_rhs => rw [← Rat.num_div_den q, div_div]
  push_cast
  rfl

theorem ratSub_eq (a b : ℚ) : ratSub a b = a - b := by
  have ha : ((a.den : ℚ)) ≠ 0 := by
    exact_mod_cast a.den_nz
  have hb : ((b.den : ℚ)) ≠ 0 := by
    exact_mod_cast b.den_nz
  rw [ratSub, Rat.divInt_eq_div]
  conv_rhs => rw [← Rat.num_div_den a, ← Rat.num_div_den b]
  rw [div_sub_div _ _ ha hb]
  push_cast
  ring_nf

theorem roundCents_eq (v : ℚ) : roundCents v = Int.floor (v * 100 + 1 / 2) := by
  have hd : ((v.den : ℚ)) ≠ 0 := by
    exact_mod_cast v.den_nz
  have hrepr : v * 100 + 1 / 2
      = (((200 * v.num + (v.den : ℤ)) : ℤ) : ℚ) / ((2 * v.den : ℕ) : ℚ) := by
    conv_lhs => rw [← Rat.num_div_den v]
    push_cast
    field_simp
    ring
  rw [roundCents, hrepr, Rat.floor_intCast_div_natCast,
    Int.fdiv_eq_ediv _ (by positivity)]
  push_cast
  rfl

theorem pyRound2_eq (q : ℚ) :
    pyRound2 q = ((Int.floor (q * 100 + 1 / 2) : ℤ) : ℚ) / 100 := by
  rw [pyRound2, Rat.divInt_eq_div, roundCents_eq]
  norm_num

/-- C8: `_to_money` converts the integer-cents string `"8623440"` to
`86234.40`; every string that strips/uppercases to the `"N/A"` sentinel and
every string rejected by `int(...)` yields `None` — never zero and never an
exception (`toMoney` is a total function). -/

theorem toMoney_cents_sentinel_nonnumeric :
    toMoney (PyVal.vStr strCents) = some ((8623440 : ℚ) / 100) ∧
      (∀ s : String, pyUpper (pyTrim s) = strNA → toMoney (PyVal.vStr s) = none) ∧
      (∀ s : String, pyIntOfStr s = none → toMoney (PyVal.vStr s) = none) := by
  refine ⟨?_, fun s h => ?_, fun s h => ?_⟩
  · have h1 : toMoney (PyVal.vStr strCents) = some (Rat.divInt 8623440 100) := by
      decide
    rw [h1, Rat.divInt_eq_div]
    norm_num
  · show (if pyUpper (pyTrim s) = strNA then none else _) = none
    rw [if_pos h]
  · show (if pyUpper (pyTrim s) = strNA then none else (pyIntOfStr s).map _) = none
    by_cases hna : pyUpper (pyTrim s) = strNA
    · rw [if_pos hna]
    · rw [if_neg hna, h]
      rfl

/-- Witness for C8: the sentinel spelled `" n/a "` and the non-numeric
string `"abc"` both convert to absent. -/

theorem toMoney_cents_sentinel_nonnumeric_witness :
    pyUpper (pyTrim strNaLc) = strNA ∧ toMoney (PyVal.vStr strNaLc) = none ∧
      pyIntOfStr strAbc = none ∧ toMoney (PyVal.vStr strAbc) = none :=
  ⟨by decide, toMoney_cents_sentinel_nonnumeric.2.1 strNaLc (by decide),
    by decide, toMoney_cents_sentinel_nonnumeric.2.2 strAbc (by decide)⟩

/-- C3 counterexample: a cached credential whose `exp` field is unset is
never returned by either market's `_get_cached_token` — the claim that an
unset expiry is always treated as valid fails on the credential store. -/

theorem getCachedToken_unset_expiry_not_returned :
    getCachedTokenAR (CacheFile.parsed (some strTok) none) 100 = none ∧
      getCachedTokenUYU (CacheFile.parsed (some strTok) none) 100 = none := by
  exact ⟨rfl, by decide⟩

/-- C3 amended: a credential expired at the current second (or earlier) is
never returned by either store reader and is reported invalid by the debug
endpoint; an *unset* expiry is reported valid only by the debug endpoint,
while both store readers treat it as invalid and return nothing. -/

theorem credentialValidity_expiry (tok : Option String) (now e : Int)
    (h : e ≤ now) (hnow : 0 ≤ now) :
    getCachedTokenAR (CacheFile.parsed tok (some e)) now = none ∧
      getCachedTokenUYU (CacheFile.parsed tok (some e)) now = none ∧
      debugTokenValid (some e) now = false ∧
      debugTokenValid none now = true ∧
      getCachedTokenAR (CacheFile.parsed tok none) now = none ∧
      getCachedTokenUYU (CacheFile.parsed tok none) now = none := by
  refine ⟨?_, ?_, ?_, rfl, ?_, ?_⟩
  · cases tok with
    | none => rfl
    | some t =>
      show (if t ≠ "" ∧ e ≠ 0 ∧ e > now then some t else none) = none
      rw [if_neg]
      rintro ⟨-, -, hgt⟩
      omega
  · cases tok with
    | none => rfl
    | some t =>
      show (if t ≠ "" ∧ (some e).getD 0 > now then some t else none) = none
      rw [if_neg]
      rintro ⟨-, hgt⟩
      simp only [Option.getD_some] at hgt
      omega
  · simp only [debugTokenValid, decide_eq_false_iff_not]
    omega
  · cases tok with
    | none => rfl
    | some t => rfl
  · cases tok with
    | none => rfl
    | some t =>
      show (if t ≠ "" ∧ (Option.getD none 0 : Int) > now then some t else none) = none
      rw [if_neg]
      rintro ⟨-, hgt⟩
      simp only [Option.getD_none] at hgt
      omega

/-- Witness for C3 at a credential one second past expiry. -/

theorem credentialValidity_expiry_witness :
    (99 : Int) ≤ 100 ∧ (0 : Int) ≤ 100 ∧
      getCachedTokenAR (CacheFile.parsed (some strTok) (some 99)) 100 = none ∧
      debugTokenValid (some 99) 100 = false :=
  ⟨by decide, by decide,
    (credentialValidity_expiry (some strTok) 100 99 (by decide) (by decide)).1,
    (credentialValidity_expiry (some strTok) 100 99 (by decide) (by decide)).2.2.1⟩

/-- C5 counterexample: the UYU `_call_price_availability` propagates a
transport failure to its caller instead of returning a `(status, body)`
pair — the claim fails for that market variant. -/

theorem callPriceAvailabilityUYU_raises :
    callPriceAvailabilityUYU (HttpOutcome.exn strTimeout)
      = Except.error strTimeout := rfl

/-- C5 amended: the base-client and V2 `_call_price_availability` never let
an exception escape: every transport outcome yields a `(status, body)`
pair, and transport failures / undecodable bodies become a synthetic
`(500, str(e))`. The UYU override lacks this protection. -/

theorem callPriceAvailabilityAR_total (o : HttpOutcome) :
    (∃ p, callPriceAvailabilityAR o = Except.ok p) ∧
      (∀ e, callPriceAvailabilityAR (HttpOutcome.exn e)
        = Except.ok (500, PABody.text e)) ∧
      (∀ st e, callPriceAvailabilityAR (HttpOutcome.respNotJson st e)
        = Except.ok (500, PABody.text e)) := by
  refine ⟨?_, fun e => rfl, fun st e => rfl⟩
  cases o with
  | exn e => exact ⟨_, rfl⟩
  | respEmpty st => exact ⟨_, rfl⟩
  | respJson st r => exact ⟨_, rfl⟩
  | respNotJson st e => exact ⟨_, rfl⟩

/-- C9 counterexample: the V1 extractor reformats the non-digit
4-character time value `"abcd"` into `"ab:cd"` instead of emptying it —
the claim that only 4-DIGIT values are reformatted (and everything else
yields an empty field) is false. -/

theorem timeFormat_four_nondigit_reformatted :
    entryHs (totalesProgramadaPorSailing ⟨[sailingBadTime]⟩) strCode1
        = some strAbcdColon ∧
      strAbcdColon ≠ strEmpty := by
  exact ⟨by decide, by decide⟩

/-- C9 amended: the extractors test only the *length* of the raw time
value: any 4-character string (digits or not) is reformatted to
`xx:yy`, and any other length yields `""` in the V1 extractor, `None` in
the V2 extractor, and passes through unchanged in `get_web_prices`'s
`hhmm`. -/

theorem timeFormat_length_only (hs : String) :
    (hs.length = 4 →
      fmtTimeV1 hs = hs.take 2 ++ strColon ++ hs.drop 2 ∧
        fmtTimeV2 hs = some (hs.take 2 ++ strColon ++ hs.drop 2) ∧
        hhmm (some hs) = some (hs.take 2 ++ strColon ++ hs.drop 2)) ∧
      (hs.length ≠ 4 →
        fmtTimeV1 hs = strEmpty ∧ fmtTimeV2 hs = none ∧
          hhmm (some hs) = some hs) := by
  constructor
  · intro h
    refine ⟨?_, ?_, ?_⟩ <;> simp [fmtTimeV1, fmtTimeV2, hhmm, h]
  · intro h
    refine ⟨?_, ?_, ?_⟩ <;> simp [fmtTimeV1, fmtTimeV2, hhmm, h]

/-- Witness for C9 at the digit time code `"0830"` and the 5-character
value `"08:30"`. -/

theorem timeFormat_length_only_witness :
    str0830.length = 4 ∧ fmtTimeV1 str0830 = str0830Colon ∧
      str0830Colon.length ≠ 4 ∧ fmtTimeV1 str0830Colon = strEmpty :=
  ⟨by decide,
    by rw [((timeFormat_length_only str0830).1 (by decide)).1]; decide,
    by decide,
    ((timeFormat_length_only str0830Colon).2 (by decide)).1⟩

/-- C10: `fetch_day_full` (the `/price/full` endpoint) emits exactly one
record per upstream `sailingprice` entry, in upstream order, and a sailing
whose `PROGRAMADA` (resp. `FLEXIBLE`) total is absent is still present,
with a `None` amount for that field and a `None` differential. -/

theorem fetchDayFull_one_record_per_sailing (raw : RawResponse) :
    fetchDayFull 200 raw = (200, Sum.inr (raw.sailings.map mkFullItem)) ∧
      (raw.sailings.map mkFullItem).length = raw.sailings.length ∧
      (∀ i, ∀ h1 : i < (raw.sailings.map mkFullItem).length,
        ∀ h2 : i < raw.sailings.length,
        (raw.sailings.map mkFullItem).get ⟨i, h1⟩
          = mkFullItem (raw.sailings.get ⟨i, h2⟩)) ∧
      (∀ s : Sailing, (fullTotals s.tariffTotals).1 = none →
        (mkFullItem s).turista = none ∧ (mkFullItem s).diff = none) ∧
      (∀ s : Sailing, (fullTotals s.tariffTotals).2 = none →
        (mkFullItem s).business = none ∧ (mkFullItem s).diff = none) := by
  refine ⟨rfl, by simp, ?_, ?_, ?_⟩
  · intro i h1 h2
    simp [List.get_map]
  · intro s h
    constructor
    · simp [mkFullItem, h]
    · simp only [mkFullItem]
      rw [h]
  · intro s h
    constructor
    · simp [mkFullItem, h]
    · simp only [mkFullItem]
      rw [h]
      cases hp : (fullTotals s.tariffTotals).1 <;> rfl

/-- Witness for C10: a response whose single sailing lacks both totals
still yields one record, with absent amounts and differential. -/

theorem fetchDayFull_one_record_per_sailing_witness :
    (RawResponse.mk [sailingNoTotals]).sailings.map mkFullItem
        = [mkFullItem sailingNoTotals] ∧
      (fullTotals sailingNoTotals.tariffTotals).1 = none ∧
      (mkFullItem sailingNoTotals).turista = none ∧
      (mkFullItem sailingNoTotals).diff = none :=
  ⟨by decide, by decide,
    ((fetchDayFull_one_record_per_sailing ⟨[sailingNoTotals]⟩).2.2.2.1
      sailingNoTotals (by decide)).1,
    ((fetchDayFull_one_record_per_sailing ⟨[sailingNoTotals]⟩).2.2.2.1
      sailingNoTotals (by decide)).2⟩

/-- C7: for both extractors, a sailing code all of whose entries lack a
parseable total for the requested tariff is absent from the output map —
never present with a null amount — and every present key's tuple carries
the numeric total parsed from some entry bearing that code. -/

theorem extractor_omission_rule (raw : RawResponse) (tarifa code : String) :
    ((∀ s ∈ raw.sailings, s.sailingCode = some code →
        totalProgV1 s.tariffTotals = none) →
      dget code (totalesProgramadaPorSailing raw) = none) ∧
    ((∀ s ∈ raw.sailings, s.sailingCode = some code →
        totalTarifaV2 tarifa s.tariffTotals = none) →
      dget code (totalesPorTarifa raw tarifa) = none) ∧
    (∀ e, dget code (totalesProgramadaPorSailing raw) = some e →
      ∃ s ∈ raw.sailings, s.sailingCode = some code ∧
        totalProgV1 s.tariffTotals = some e.amount) ∧
    (∀ e, dget code (totalesPorTarifa raw tarifa) = some e →
      ∃ s ∈ raw.sailings, s.sailingCode = some code ∧
        totalTarifaV2 tarifa s.tariffTotals = some e.amount) := by
  refine ⟨?_, ?_, ?_, ?_⟩
  · intro h
    exact dget_extract_fold_none _ _ _ _ _ rfl h
  · intro h
    exact dget_extract_fold_none _ _ _ _ _ rfl h
  · intro e he
    rcases dget_extract_fold_some _ _ _ _ _ _ he with h0 | ⟨s, hs, hc, q, hq, heq⟩
    · exact absurd h0 (by simp [dget])
    · refine ⟨s, hs, hc, ?_⟩
      rw [hq, heq]
      rfl
  · intro e he
    rcases dget_extract_fold_some _ _ _ _ _ _ he with h0 | ⟨s, hs, hc, q, hq, heq⟩
    · exact absurd h0 (by simp [dget])
    · refine ⟨s, hs, hc, ?_⟩
      rw [hq, heq]
      rfl

/-- Witness for C7: the sailing with no tariff totals is absent from both
extractions of the response containing only it. -/

theorem extractor_omission_rule_witness :
    dget strCode1 (totalesProgramadaPorSailing ⟨[sailingNoTotals]⟩) = none ∧
      dget strCode1 (totalesPorTarifa ⟨[sailingNoTotals]⟩ strECONOMICA) = none :=
  ⟨(extractor_omission_rule ⟨[sailingNoTotals]⟩ strECONOMICA strCode1).1
      (fun s hs _ => by
        rcases List.mem_singleton.mp hs with rfl
        rfl),
    (extractor_omission_rule ⟨[sailingNoTotals]⟩ strECONOMICA strCode1).2.1
      (fun s hs _ => by
        rcases List.mem_singleton.mp hs with rfl
        rfl)⟩

/-- C1 counterexample: querying with the sailing present only in the
business-class response (departure time `"08:45"` there) and absent from
the tourist response, the merged record's departure time is `None`, not
`"08:45"` — the business-class time is never consulted by the merge. -/

theorem mergedTimes_skip_business :
    entryHs (totalesProgramadaPorSailing rawBiz) strCode1 = some str0845 ∧
      (rowsOf (fetchDayWebPricesProV2 (200, rawEmptyResp) (200, rawBiz)
          (200, rawEmptyResp) (200, rawEmptyResp))).map
        (fun r => (r.codigo, r.hora_salida)) = [(strCode1, none)] := by
  exact ⟨by decide, by decide⟩

/-- C1 amended: in every merged row of the pro fare table, the vessel name
is the first truthy value across tourist `or` business `or` first `or`
economy (as claimed), but the departure and arrival times fall back from
the tourist class directly to the economy class — the business- and
first-class times are never used. -/

theorem fetchDayWebPricesPro_merge_precedence
    (rt rb rp re2 : Nat × RawResponse) (row : Row)
    (ht : rt.1 = 200) (hb : rb.1 = 200) (hp : rp.1 = 200)
    (hmem : row ∈ rowsOf (fetchDayWebPricesProV2 rt rb rp re2)) :
    row.barco
        = pyOrS (pyOrS (pyOrS
            (entryShip (totalesProgramadaPorSailing rt.2) row.codigo)
            (entryShip (totalesProgramadaPorSailing rb.2) row.codigo))
            (entryShip (totalesProgramadaPorSailing rp.2) row.codigo))
          (entryShip (economyMap re2) row.codigo) ∧
      row.hora_salida
        = pyOrS (entryHs (totalesProgramadaPorSailing rt.2) row.codigo)
          (entryHs (economyMap re2) row.codigo) ∧
      row.hora_llegada
        = pyOrS (entryHa (totalesProgramadaPorSailing rt.2) row.codigo)
          (entryHa (economyMap re2) row.codigo) := by
  rw [fetchDayWebPricesProV2, if_neg (by omega), if_neg (by omega),
    if_neg (by omega)] at hmem
  rcases mem_mergeRows hmem with ⟨code, rfl⟩
  exact ⟨rfl, rfl, rfl⟩

/-- Witness for C1 on the example data: the merged row is reachable and
its departure time follows the tourist-then-economy fallback. -/

theorem fetchDayWebPricesPro_merge_precedence_witness :
    c1Row ∈ rowsOf (fetchDayWebPricesProV2 (200, rawEmptyResp) (200, rawBiz)
        (200, rawEmptyResp) (200, rawEmptyResp)) ∧
      c1Row.hora_salida
        = pyOrS (entryHs (totalesProgramadaPorSailing rawEmptyResp) c1Row.codigo)
          (entryHs (economyMap (200, rawEmptyResp)) c1Row.codigo) :=
  ⟨by decide,
    (fetchDayWebPricesPro_merge_precedence (200, rawEmptyResp) (200, rawBiz)
      (200, rawEmptyResp) (200, rawEmptyResp) c1Row rfl rfl rfl (by decide)).2.1⟩

/-- C4 counterexample: in the V2 aggregator a *business*-class failure
(status 500) fails the whole query with that status — it is not limited to
the tourist (primary) class, and the query does not succeed with 200. -/

theorem businessFailure_fails_whole_query :
    fetchDayWebPricesProV2 (200, rawEmptyResp) (500, rawBiz)
        (200, rawEmptyResp) (200, rawEmptyResp) = (500, Sum.inl rawBiz) ∧
      (fetchDayWebPricesProV2 (200, rawEmptyResp) (500, rawBiz)
        (200, rawEmptyResp) (200, rawEmptyResp)).1 ≠ 200 := by
  exact ⟨rfl, by decide⟩

/-- C4 amended: in the V2 (AR) aggregator, a non-success status of the
tourist, business, or first class each fails the whole query with that
status and raw body (checked in that order); only the economy class
degrades gracefully — with the other three at 200 the query returns 200,
and a failed economy class leaves every row's economy amount absent. In
the UYU variant only the tourist status gates the query. -/

theorem fetchDayWebPricesPro_failure_handling (rt rb rp re2 : Nat × RawResponse) :
    (rt.1 = 200 → rb.1 ≠ 200 →
      fetchDayWebPricesProV2 rt rb rp re2 = (rb.1, Sum.inl rb.2)) ∧
      (rt.1 = 200 → rb.1 = 200 → rp.1 ≠ 200 →
        fetchDayWebPricesProV2 rt rb rp re2 = (rp.1, Sum.inl rp.2)) ∧
      (rt.1 = 200 → rb.1 = 200 → rp.1 = 200 →
        (fetchDayWebPricesProV2 rt rb rp re2).1 = 200) ∧
      (rt.1 = 200 → rb.1 = 200 → rp.1 = 200 → re2.1 ≠ 200 →
        ∀ row ∈ rowsOf (fetchDayWebPricesProV2 rt rb rp re2),
          row.economica = none) ∧
      (rt.1 = 200 → (fetchDayWebPricesProUYU rt rb rp re2).1 = 200) := by
  refine ⟨?_, ?_, ?_, ?_, ?_⟩
  · intro ht hb
    rw [fetchDayWebPricesProV2, if_neg (by omega), if_pos hb]
  · intro ht hb hp
    rw [fetchDayWebPricesProV2, if_neg (by omega), if_neg (by omega), if_pos hp]
  · intro ht hb hp
    rw [fetchDayWebPricesProV2, if_neg (by omega), if_neg (by omega),
      if_neg (by omega)]
  · intro ht hb hp he row hmem
    rw [fetchDayWebPricesProV2, if_neg (by omega), if_neg (by omega),
      if_neg (by omega)] at hmem
    rcases mem_mergeRows hmem with ⟨code, rfl⟩
    show fmtMoney curARS ((dget code (economyMap re2)).map MapEntry.amount) = none
    rw [economyMap, if_neg he]
    rfl
  · intro ht
    rw [fetchDayWebPricesProUYU, if_neg (by omega)]

/-- Witness for C4: with tourist/business/first at 200 and economy at 500
the V2 query still succeeds, and the UYU query succeeds with
tourist-only success. -/

theorem fetchDayWebPricesPro_failure_handling_witness :
    (fetchDayWebPricesProV2 (200, rawBiz) (200, rawBiz) (200, rawBiz)
        (500, rawEmptyResp)).1 = 200 ∧
      (fetchDayWebPricesProUYU (200, rawBiz) (500, rawBiz) (500, rawBiz)
        (500, rawEmptyResp)).1 = 200 :=
  ⟨(fetchDayWebPricesPro_failure_handling (200, rawBiz) (200, rawBiz)
      (200, rawBiz) (500, rawEmptyResp)).2.2.1 rfl rfl rfl,
    (fetchDayWebPricesPro_failure_handling (200, rawBiz) (500, rawBiz)
      (500, rawBiz) (500, rawEmptyResp)).2.2.2.2 rfl⟩

/-- Witness for C6 at the calendar date 2025-03-14 in all three forms. -/

theorem normalizeDate_same_date_agrees_witness :
    Char.isDigit '2' = true ∧
      normalizeDateToYymmdd ['2', '0', '2', '5', '-', '0', '3', '-', '1', '4']
        = some (['2', '5'], (['0', '3'], ['1', '4'])) ∧
      normalizeDateToYymmdd ['1', '4', '/', '0', '3', '/', '2', '0', '2', '5']
        = some (['2', '5'], (['0', '3'], ['1', '4'])) ∧
      normalizeDateToYymmdd ['2', '5', '0', '3', '1', '4']
        = some (['2', '5'], (['0', '3'], ['1', '4'])) :=
  ⟨by decide,
    (normalizeDate_same_date_agrees '2' '0' '2' '5' '0' '3' '1' '4'
      (by decide) (by decide) (by decide) (by decide)
      (by decide) (by decide) (by decide) (by decide)).1,
    (normalizeDate_same_date_agrees '2' '0' '2' '5' '0' '3' '1' '4'
      (by decide) (by decide) (by decide) (by decide)
      (by decide) (by decide) (by decide) (by decide)).2.1,
    (normalizeDate_same_date_agrees '2' '0' '2' '5' '0' '3' '1' '4'
      (by decide) (by decide) (by decide) (by decide)
      (by decide) (by decide) (by decide) (by decide)).2.2⟩

/-- C2 counterexample: in the AR market (base client, inherited by V2),
`_get_valid_token` has no lock, so two concurrent callers starting with an
empty cache can both launch a browser acquisition (`acq = 2`) and return
*different* credentials — single-flight fails for that market. -/

theorem getValidTokenAR_no_single_flight :
    ReachableAR 2 arS6 ∧ arS6.acq = 2 ∧ arS6.res 0 = some 1 ∧
      arS6.res 1 = some 2 ∧ arS6.res 0 ≠ arS6.res 1 := by
  refine ⟨?_, by decide, by decide, by decide, by decide⟩
  have h1 : StepAR (tokInit 2) arS1 := StepAR.readMiss (tokInit 2) 0 rfl rfl
  have h2 : StepAR arS1 arS2 := StepAR.readMiss arS1 1 (by decide) rfl
  have h3 : StepAR arS2 arS3 := StepAR.acquire arS2 0 (by decide)
  have h4 : StepAR arS3 arS4 := StepAR.acquire arS3 1 (by decide)
  have h5 : StepAR arS4 arS5 := StepAR.write arS4 0 (tokenOf (0 : Fin 2)) (by decide)
  have h6 : StepAR arS5 arS6 := StepAR.write arS5 1 (tokenOf (1 : Fin 2)) (by decide)
  exact Relation.ReflTransGen.tail
    (Relation.ReflTransGen.tail
      (Relation.ReflTransGen.tail
        (Relation.ReflTransGen.tail
          (Relation.ReflTransGen.tail
            (Relation.ReflTransGen.tail Relation.ReflTransGen.refl h1) h2) h3) h4) h5) h6

/-- C2 amended: in the UYU market, whose `_get_valid_token` double-checks
the store under the class-level lock, every reachable interleaving of `n`
concurrent callers launches at most one browser acquisition, and any two
callers that have returned hold the same credential. The AR market's
lock-free `_get_valid_token` does not have this property. -/

theorem getValidTokenUYU_single_flight (n : Nat) (s : TokSt n)
    (h : ReachableUYU n s) :
    s.acq ≤ 1 ∧
      ∀ i j : Fin n, ∀ ti tj : Nat,
        s.res i = some ti → s.res j = some tj → ti = tj := by
  have inv := tokInv_reachable h
  refine ⟨inv.acqLe, fun i j ti tj hi hj => ?_⟩
  have h1 := inv.resCache i ti hi
  have h2 := inv.resCache j tj hj
  exact Option.some_inj.mp (h1.symm.trans h2)

/-- Witness for C2: a concrete reachable UYU state (one caller about to
acquire) satisfies the bound and the agreement property. -/

theorem getValidTokenUYU_single_flight_witness :
    uyS3.acq ≤ 1 ∧
      ∀ i j : Fin 2, ∀ ti tj : Nat,
        uyS3.res i = some ti → uyS3.res j = some tj → ti = tj :=
  getValidTokenUYU_single_flight 2 uyS3
    (Relation.ReflTransGen.tail
      (Relation.ReflTransGen.tail
        (Relation.ReflTransGen.tail Relation.ReflTransGen.refl
          (StepUYU.readMiss (tokInit 2) 0 rfl rfl))
        (StepUYU.takeLock uyS1 0 (by decide) rfl))
      (StepUYU.recheckMiss uyS2 0 (by decide) (by decide) rfl))
